import Mathlib

/-!
Verification of the IBM MQ data producer (`src/ibm-mq/data-producer/producer.py`)
against its natural-language specification.

The script is shallowly embedded as follows.

* Randomness (`random.randint`, `random.choice`, `random.uniform`, the faker
  strings, `datetime.utcnow()`) is supplied by an `Oracle` record: one field per
  random draw made by `generate_transaction`.  Each Python randomness primitive
  is modelled as a total function of the oracle value that always lands in the
  range the primitive guarantees (e.g. `randint a b` maps its seed into
  `[a, b]`), so theorems quantified over all oracles cover every run.
* Python floats are idealised as exact rationals (`ℚ`); `round(x, 2)` is
  modelled as correct round-half-to-even onto hundredths, which is what CPython
  implements for decimal rounding of floats.  Float `repr` output is modelled
  as an exact decimal literal (sign, integer part, fraction digits).
* `json.dumps(data, indent=2)` (with its default `ensure_ascii=True`) and the
  matching decoder are implemented over a `Json` value type; the decoder is the
  subset of `json.loads` reachable from payloads this producer emits (strings
  with all escape forms including surrogate pairs, decimal numbers, nested
  objects).  `str.encode("utf-8")` is a byte-level UTF-8 encoder.
* The `main` loop is an interpreter over a list of per-iteration outcomes
  (publish succeeded / publish raised / interrupt or unexpected error at the
  points the spec distinguishes), producing the final counter, the ordered
  action trace (connect attempts, publishes, logs, sleeps, disconnects) and
  the shutdown summary.

All definitions use structural recursion (fuel-indexed where needed) so that
every concrete instance evaluates by `decide`/`rfl`.
-/

/-! ## Decimal digits

`str(n)` for a natural number: most-significant-first decimal digit characters.
The recursion is structural on a fuel argument (`fuel = n` always suffices,
since the digit count of `n` is at most `n` for `n ≥ 1`). -/

/-- The character of the decimal digit `d` (`'0'` has code 48). -/

def decDigit (d : Nat) : Char := Char.ofNat (48 + d)

/-- The numeric value of a digit character. -/

def digitVal (c : Char) : Nat := c.toNat - 48

/-- Fuel-indexed digit emitter: digits of `n`, most significant first, in front
of `acc`. -/

def natDigitsGo : Nat → Nat → List Char → List Char
  | 0, n, acc => decDigit n :: acc
  | fuel + 1, n, acc =>
    if n < 10 then decDigit n :: acc
    else natDigitsGo fuel (n / 10) (decDigit (n % 10) :: acc)

/-- Decimal digit characters of `n`, most significant first: models `str(n)`. -/

def natDigits (n : Nat) : List Char := natDigitsGo n n []

/-- Models Python `str(n)` for a natural number. -/

def natStr (n : Nat) : String := String.mk (natDigits n)

/-- Value of a digit-character run, most significant first. -/

def digitsVal (ds : List Char) : Nat :=
  ds.foldl (fun a c => 10 * a + digitVal c) 0

/-! ## Python randomness primitives

Each primitive takes the oracle value of the corresponding draw and is total;
its image is exactly the set of values the Python primitive can return. -/

/-- Models `random.randint(a, b)` (both bounds inclusive): the seed is mapped
into `[a, b]`. -/

def pyRandint (a b seed : Nat) : Nat := a + seed % (b - a + 1)

/-- Models `random.choice(l)` for a nonempty list. -/

def pyChoice (l : List String) (seed : Nat) : String :=
  l.getD (seed % l.length) ""

/-- Models `random.random()`: some value in the unit interval, cut out of the
oracle's rational. -/

def pyUnit (t : ℚ) : ℚ := max 0 (min 1 t)

/-- Models `random.uniform(a, b) = a + (b - a) * random()`. -/

def pyUniform (a b : ℚ) (t : ℚ) : ℚ := a + (b - a) * pyUnit t

/-- Round-half-to-even to the nearest integer (CPython's rounding mode for
`round` on floats, idealised over ℚ). -/

def roundHalfEven (q : ℚ) : ℤ :=
  let n := ⌊q⌋
  let r := q - n
  if r < 1 / 2 then n
  else if 1 / 2 < r then n + 1
  else if Even n then n else n + 1

/-- Models Python `round(x, 2)`: round-half-to-even onto hundredths. -/

def pyRound2 (q : ℚ) : ℚ := (roundHalfEven (q * 100) : ℚ) / 100

/-! ## The producer main loop

`main` is modelled as an interpreter over a list of per-iteration outcomes.
One `IterOutcome` describes what the environment did during one pass of the
`while True` body: the publish either succeeded or raised (both followed by the
sleep), or a `KeyboardInterrupt` arrived during the sleep (after the publish
attempt) or before it, or a non-publish exception escaped the body.  The
interpreter returns the final `message_count`, whether the loop was exited by
an exception, and the ordered trace of observable actions.  An empty / fully
consumed outcome list means the loop is still running (the real loop is
infinite), so no disconnect has happened yet. -/

/-- One step of `send_message`: `pymqi.Queue(...)`, `queue.put(...)`,
`queue.close()`. -/
inductive MQStep where
  | openQueue
  | putMsg
  | closeQueue
deriving DecidableEq

/-- Observable actions of `main`, in program order. -/
inductive ProdAct where
  | connectAttempt
  | connectOk
  | connectFailLogged
  | publishSuccess
  | publishFailLogged
  | sleepDone
  | interrupted
  | loopErrorLogged
  | disconnectCall
deriving DecidableEq

/-- What the environment does during one iteration of the `while True` body. -/
inductive IterOutcome where
  | completed (ok : Bool)
  | sleepInterrupt (ok : Bool)
  | genInterrupt
  | bodyError
deriving DecidableEq

/-- An error `qmgr.disconnect()` may raise during the `finally` block. -/
inductive DCErr where
  | alreadyClosed
  | transportFailure
  | otherErr (code : Nat)
deriving DecidableEq

/-- Result of the `finally` block: whether an exception escaped it, and the
shutdown summary count it printed (the print follows the disconnect inside the
inner `try`, so a raising disconnect suppresses it). -/
structure ShutdownOutcome where
  escaped : Bool
  summary : Option Nat
deriving DecidableEq

/-- The `finally` block: `try: qmgr.disconnect(); print(summary) except: pass`. -/
def finallyBlock (count : Nat) (dc : Option DCErr) : ShutdownOutcome :=
  match dc with
  | none => ⟨false, some count⟩
  | some _ => ⟨false, none⟩

/-- State after running the loop body over a list of iteration outcomes. -/
structure LoopResult where
  count : Nat
  stopped : Bool
  trace : List ProdAct
deriving DecidableEq

/-- The `while True` body: publish inside `try/except Exception` (so a failed
publish is logged and the loop continues), `message_count += 1` only after a
successful `send_message`, `time.sleep` after every attempt; interrupts and
non-publish errors escape the loop. -/
def runIters : Nat → List IterOutcome → LoopResult
  | c, [] => ⟨c, false, []⟩
  | c, .completed ok :: rest =>
    let r := runIters (c + if ok then 1 else 0) rest
    ⟨r.count, r.stopped,
      (if ok then ProdAct.publishSuccess else ProdAct.publishFailLogged)
        :: ProdAct.sleepDone :: r.trace⟩
  | c, .sleepInterrupt ok :: _ =>
    ⟨c + if ok then 1 else 0, true,
      [if ok then ProdAct.publishSuccess else ProdAct.publishFailLogged,
       ProdAct.interrupted]⟩
  | c, .genInterrupt :: _ => ⟨c, true, [ProdAct.interrupted]⟩
  | c, .bodyError :: _ => ⟨c, true, [ProdAct.loopErrorLogged]⟩

/-- Result of a whole run of `main`. -/
structure MainResult where
  count : Nat
  enteredLoop : Bool
  loopExited : Bool
  disconnectCalls : Nat
  summary : Option Nat
  trace : List ProdAct
deriving DecidableEq

/-- The `main` function of the producer: one connect attempt (a failure is
logged and `main` returns before `message_count` exists, with no second try and
no disconnect), then the loop, then — only if the loop was exited by an
exception — the `finally` block with its single disconnect. -/
def pymain (connOk : Bool) (dc : Option DCErr) (evs : List IterOutcome) :
    MainResult :=
  if connOk then
    let r := runIters 0 evs
    if r.stopped then
      let sh := finallyBlock r.count dc
      ⟨r.count, true, true, 1, sh.summary,
        ProdAct.connectAttempt :: ProdAct.connectOk
          :: (r.trace ++ [ProdAct.disconnectCall])⟩
    else
      ⟨r.count, true, false, 0, none,
        ProdAct.connectAttempt :: ProdAct.connectOk :: r.trace⟩
  else
    ⟨0, false, true, 0, none, [ProdAct.connectAttempt, ProdAct.connectFailLogged]⟩

/-- Number of occurrences of action `a` in a trace. -/
def countAct (a : ProdAct) : List ProdAct → Nat
  | [] => 0
  | b :: r => (if b = a then 1 else 0) + countAct a r

/-! ## JSON text: lexical pieces -/

/-- JSON whitespace accepted by the decoder. -/
def isWsChar (c : Char) : Bool := c = ' ' || c = '\n' || c = '\t' || c = '\r'

/-- Drop leading JSON whitespace. -/
def skipWs : List Char → List Char
  | [] => []
  | c :: cs => if isWsChar c then skipWs cs else c :: cs

/-- Lower-case hexadecimal digit character of `d < 16`. -/
def hexDigit (d : Nat) : Char :=
  if d < 10 then Char.ofNat (48 + d) else Char.ofNat (87 + d)

/-- Four-digit lower-case hex rendering of `n < 0x10000`. -/
def hex4 (n : Nat) : List Char :=
  [hexDigit (n / 4096 % 16), hexDigit (n / 256 % 16),
   hexDigit (n / 16 % 16), hexDigit (n % 16)]

/-- Value of one hex digit character (either case), if it is one. -/
def hexVal (c : Char) : Option Nat :=
  if 48 ≤ c.toNat ∧ c.toNat ≤ 57 then some (c.toNat - 48)
  else if 97 ≤ c.toNat ∧ c.toNat ≤ 102 then some (c.toNat - 87)
  else if 65 ≤ c.toNat ∧ c.toNat ≤ 70 then some (c.toNat - 55)
  else none

/-- Build a character from a scalar value, rejecting surrogates and
out-of-range values. -/
def mkChar (n : Nat) : Option Char :=
  if n.isValidChar then some (Char.ofNat n) else none

/-- Escape of one character as `json.dumps` emits it with its default
`ensure_ascii=True`: the two-character escapes for quote, backslash and the
named control characters, printable ASCII verbatim, `\uXXXX` for every other
scalar below `0x10000`, and a surrogate pair of `\uXXXX` escapes above. -/
def escChar (c : Char) : List Char :=
  if c = '"' then ['\\', '"']
  else if c = '\\' then ['\\', '\\']
  else if c = Char.ofNat 8 then ['\\', 'b']
  else if c = '\t' then ['\\', 't']
  else if c = '\n' then ['\\', 'n']
  else if c = Char.ofNat 12 then ['\\', 'f']
  else if c = '\r' then ['\\', 'r']
  else if 32 ≤ c.toNat ∧ c.toNat ≤ 126 then [c]
  else if c.toNat < 65536 then '\\' :: 'u' :: hex4 c.toNat
  else
    '\\' :: 'u' :: hex4 (55296 + (c.toNat - 65536) / 1024)
      ++ '\\' :: 'u' :: hex4 (56320 + (c.toNat - 65536) % 1024)

/-- Escape a character run. -/
def escStr : List Char → List Char
  | [] => []
  | c :: cs => escChar c ++ escStr cs

/-- A JSON string literal: quotes around the escaped content. -/
def quoteStr (s : String) : List Char := '"' :: (escStr s.data ++ ['"'])

/-- Prepend a decoded character onto a string-body parse result. -/
def consFst (c : Char) (o : Option (List Char × List Char)) :
    Option (List Char × List Char) :=
  o.map (fun p => (c :: p.1, p.2))

/-- Combined value of four hex digit characters. -/
def hex4Val (a b c d : Char) : Option Nat :=
  match hexVal a, hexVal b, hexVal c, hexVal d with
  | some va, some vb, some vc, some vd =>
    some (va * 4096 + vb * 256 + vc * 16 + vd)
  | _, _, _, _ => none

/-- Read four hex digit characters off the input. -/
def readHex4 : List Char → Option (Nat × List Char)
  | a :: b :: c :: d :: rest =>
    match hex4Val a b c d with
    | some n => some (n, rest)
    | none => none
  | _ => none

/-- The character a two-character escape denotes, if the letter is one of the
JSON short escapes. -/
def escapedChar (e : Char) : Option Char :=
  if e = '"' then some '"'
  else if e = '\\' then some '\\'
  else if e = '/' then some '/'
  else if e = 'b' then some (Char.ofNat 8)
  else if e = 't' then some '\t'
  else if e = 'n' then some '\n'
  else if e = 'f' then some (Char.ofNat 12)
  else if e = 'r' then some '\r'
  else none

/-- Decode a JSON string body (after the opening quote) up to the closing
quote, undoing every escape form `escChar` can emit (plus `\/`); a high
surrogate escape must be completed by a low one.  One step, parameterised by
the continuation used for the remaining input. -/
def strBodyStep (rec : List Char → Option (List Char × List Char)) :
    List Char → Option (List Char × List Char)
  | [] => none
  | c :: rest =>
    if c = '"' then some ([], rest)
    else if c = '\\' then
      match rest with
      | [] => none
      | e :: rest1 =>
        if e = 'u' then
          match readHex4 rest1 with
          | some (n, rest2) =>
            if 55296 ≤ n ∧ n ≤ 56319 then
              match rest2 with
              | b1 :: b2 :: rest3 =>
                if b1 = '\\' ∧ b2 = 'u' then
                  match readHex4 rest3 with
                  | some (n2, rest4) =>
                    if 56320 ≤ n2 ∧ n2 ≤ 57343 then
                      match mkChar (65536 + (n - 55296) * 1024 + (n2 - 56320)) with
                      | some ch => consFst ch (rec rest4)
                      | none => none
                    else none
                  | none => none
                else none
              | _ => none
            else
              match mkChar n with
              | some ch => consFst ch (rec rest2)
              | none => none
          | none => none
        else
          match escapedChar e with
          | some ch => consFst ch (rec rest1)
          | none => none
    else if c.toNat < 32 then none
    else consFst c (rec rest)

/-- Fuel-indexed runner of `strBodyStep` (one unit of fuel per decoded
character; the input length is always enough fuel). -/
def strBody : Nat → List Char → Option (List Char × List Char)
  | 0, _ => none
  | fuel + 1, cs => strBodyStep (strBody fuel) cs

/-- Digit character to `Fin 10` (identity on actual digits). -/
def charToFin (c : Char) : Fin 10 := ⟨(c.toNat - 48) % 10, by omega⟩

/-- Decode an unsigned JSON number: an integer digit run, optionally followed
by a fraction digit run. -/
def numCore (cs : List Char) : Option ((Nat × List (Fin 10)) × List Char) :=
  let ds := cs.takeWhile Char.isDigit
  let cs1 := cs.dropWhile Char.isDigit
  if ds.isEmpty then none
  else
    match cs1 with
    | '.' :: cs2 =>
      let fs := cs2.takeWhile Char.isDigit
      if fs.isEmpty then none
      else some ((digitsVal ds, fs.map charToFin), cs2.dropWhile Char.isDigit)
    | _ => some ((digitsVal ds, []), cs1)

/-! ## JSON values

Objects are a separate (mutually inductive) member-list type so that all
recursion over values is structural.  A number is an exact decimal literal:
sign, integer part, fraction digits — the shape of a CPython float `repr`
(this producer never emits exponent notation: amounts are in `[10, 5000]`
and coordinates in `[-180, 180]`). -/

mutual
inductive Json where
  | str : String → Json
  | num : Bool → Nat → List (Fin 10) → Json
  | obj : Members → Json
inductive Members where
  | nil : Members
  | cons : String → Json → Members → Members
end

/-- Indentation emitted by `json.dumps(..., indent=2)` at nesting level
`lvl`. -/
def indentC (lvl : Nat) : List Char := List.replicate (2 * lvl) ' '

/-- Fraction text of a number value: nothing, or a dot and the digits. -/
def fracChars (frac : List (Fin 10)) : List Char :=
  match frac with
  | [] => []
  | _ :: _ => '.' :: frac.map (fun d => decDigit d.val)

/-- Decimal literal text of a number value. -/
def numChars (neg : Bool) (ip : Nat) (frac : List (Fin 10)) : List Char :=
  (if neg then ['-'] else []) ++ natDigits ip ++ fracChars frac

mutual
/-- Render a JSON value exactly as `json.dumps(value, indent=2)` lays it out
at nesting level `lvl`. -/
def printVal (lvl : Nat) : Json → List Char
  | .str s => quoteStr s
  | .num neg ip frac => numChars neg ip frac
  | .obj .nil => ['{', '}']
  | .obj (.cons k v m) =>
    '{' :: '\n'
      :: (printMems (lvl + 1) (Members.cons k v m)
          ++ '\n' :: (indentC lvl ++ ['}']))
/-- Render a nonempty member list: each member on its own indented line as
`"key": value`, separated by commas. -/
def printMems (lvl : Nat) : Members → List Char
  | .nil => []
  | .cons k v m =>
    indentC lvl ++ quoteStr k ++ ':' :: ' '
      :: (printVal lvl v ++
        (match m with
         | .nil => []
         | .cons k2 v2 m2 => ',' :: '\n' :: printMems lvl (Members.cons k2 v2 m2)))
end

mutual
/-- Parse fuel needed for a value (bounded by its printed length; fuel is
spent once per `parseVal`/`parseMems` call). -/
def jsize : Json → Nat
  | .str _ => 1
  | .num _ _ _ => 1
  | .obj m => msize m + 1
/-- Parse fuel needed for a member list. -/
def msize : Members → Nat
  | .nil => 1
  | .cons _ v m => max (jsize v) (msize m) + 1
end

/-- One step of the JSON value decoder, parameterised by the member decoder
for the object branch. -/
def parseValStep (pm : List Char → Option (Members × List Char))
    (cs : List Char) : Option (Json × List Char) :=
  match skipWs cs with
  | '"' :: cs1 =>
    match strBody cs1.length cs1 with
    | some (body, cs2) => some (Json.str (String.mk body), cs2)
    | none => none
  | '{' :: cs1 =>
    match pm cs1 with
    | some (m, cs2) => some (Json.obj m, cs2)
    | none => none
  | '-' :: cs1 =>
    match numCore cs1 with
    | some ((ip, frac), cs2) => some (Json.num true ip frac, cs2)
    | none => none
  | c :: cs1 =>
    if c.isDigit then
      match numCore (c :: cs1) with
      | some ((ip, frac), cs2) => some (Json.num false ip frac, cs2)
      | none => none
    else none
  | [] => none

/-- One step of the object-member decoder (after the `{`), parameterised by
the value decoder and the decoder for the remaining members. -/
def parseMemsStep (pv : List Char → Option (Json × List Char))
    (pm : List Char → Option (Members × List Char))
    (cs : List Char) : Option (Members × List Char) :=
  match skipWs cs with
  | '}' :: cs1 => some (Members.nil, cs1)
  | '"' :: cs1 =>
    match strBody cs1.length cs1 with
    | some (key, cs2) =>
      match skipWs cs2 with
      | ':' :: cs3 =>
        match pv cs3 with
        | some (v, cs4) =>
          match skipWs cs4 with
          | ',' :: cs5 =>
            match pm cs5 with
            | some (m, cs6) => some (Members.cons (String.mk key) v m, cs6)
            | none => none
          | '}' :: cs5 => some (Members.cons (String.mk key) v Members.nil, cs5)
          | _ => none
        | none => none
      | _ => none
    | none => none
  | _ => none

mutual
/-- Fuel-indexed JSON value decoder (the subset of `json.loads` covering the
payloads this producer prints: strings, decimal numbers, objects). -/
def parseVal : Nat → List Char → Option (Json × List Char)
  | 0, _ => none
  | fuel + 1, cs => parseValStep (parseMems fuel) cs
/-- Decode the members of an object after its `{`, including the closing
`}`. -/
def parseMems : Nat → List Char → Option (Members × List Char)
  | 0, _ => none
  | fuel + 1, cs => parseMemsStep (parseVal fuel) (parseMems fuel) cs
end

/-- Models `json.dumps(v, indent=2)`. -/
def jsonDumps (v : Json) : String := String.mk (printVal 0 v)

/-- Models `json.loads` on the emitted payload text. -/
def jsonLoads (s : String) : Option Json :=
  match parseVal (s.data.length + 1) s.data with
  | some (v, rest) => if skipWs rest = [] then some v else none
  | none => none

/-! ## UTF-8 -/

/-- UTF-8 bytes of one scalar value. -/
def utf8Bytes (c : Char) : List Nat :=
  if c.toNat < 128 then [c.toNat]
  else if c.toNat < 2048 then [192 + c.toNat / 64, 128 + c.toNat % 64]
  else if c.toNat < 65536 then
    [224 + c.toNat / 4096, 128 + c.toNat / 64 % 64, 128 + c.toNat % 64]
  else
    [240 + c.toNat / 262144, 128 + c.toNat / 4096 % 64,
     128 + c.toNat / 64 % 64, 128 + c.toNat % 64]

/-- Models `str.encode("utf-8")`. -/
def utf8Encode : List Char → List Nat
  | [] => []
  | c :: cs => utf8Bytes c ++ utf8Encode cs

/-- One step of strict UTF-8 decoding: rejects malformed leads, bad
continuations, overlong forms and surrogates.  Parameterised by the
continuation for the remaining bytes. -/
def utf8DecodeStep (rec : List Nat → Option (List Char)) (b : Nat)
    (rest : List Nat) : Option (List Char) :=
  if b < 128 then
    match mkChar b with
    | some c => (rec rest).map (fun l => c :: l)
    | none => none
  else if b < 194 then none
  else if b < 224 then
    match rest with
    | b2 :: rest2 =>
      if 128 ≤ b2 ∧ b2 < 192 then
        match mkChar ((b - 192) * 64 + (b2 - 128)) with
        | some c => (rec rest2).map (fun l => c :: l)
        | none => none
      else none
    | [] => none
  else if b < 240 then
    match rest with
    | b2 :: b3 :: rest2 =>
      if (128 ≤ b2 ∧ b2 < 192) ∧ (128 ≤ b3 ∧ b3 < 192) then
        let m := (b - 224) * 4096 + (b2 - 128) * 64 + (b3 - 128)
        if m < 2048 then none
        else
          match mkChar m with
          | some c => (rec rest2).map (fun l => c :: l)
          | none => none
      else none
    | _ => none
  else if b < 245 then
    match rest with
    | b2 :: b3 :: b4 :: rest2 =>
      if (128 ≤ b2 ∧ b2 < 192) ∧ (128 ≤ b3 ∧ b3 < 192) ∧ (128 ≤ b4 ∧ b4 < 192) then
        let m := (b - 240) * 262144 + (b2 - 128) * 4096
          + (b3 - 128) * 64 + (b4 - 128)
        if m < 65536 then none
        else
          match mkChar m with
          | some c => (rec rest2).map (fun l => c :: l)
          | none => none
      else none
    | _ => none
  else none

/-- Fuel-indexed runner of `utf8DecodeStep` (one unit per decoded character;
the byte count is always enough fuel). -/
def utf8DecodeGo : Nat → List Nat → Option (List Char)
  | 0, bs => match bs with
    | [] => some []
    | _ :: _ => none
  | fuel + 1, bs =>
    match bs with
    | [] => some []
    | b :: rest => utf8DecodeStep (utf8DecodeGo fuel) b rest

/-- Models `bytes.decode("utf-8")` (strict). -/
def utf8Decode (bs : List Nat) : Option (List Char) :=
  utf8DecodeGo bs.length bs

/-! ## Timestamps -/

/-- A `datetime.datetime` value as `utcnow()` can produce it (microseconds are
always below one million). -/
structure PyDateTime where
  year : Nat
  month : Nat
  day : Nat
  hour : Nat
  minute : Nat
  second : Nat
  usec : Fin 1000000
deriving DecidableEq

/-- Zero-padded fixed-width decimal rendering (Python `%0⟨w⟩d`). -/
def padZ (w n : Nat) : List Char :=
  List.replicate (w - (natDigits n).length) '0' ++ natDigits n

/-- Models `datetime.isoformat()`: `YYYY-MM-DDTHH:MM:SS`, plus `.ffffff`
exactly when the microsecond field is nonzero. -/
def isoformat (dt : PyDateTime) : List Char :=
  padZ 4 dt.year ++ '-' :: padZ 2 dt.month ++ '-' :: padZ 2 dt.day
    ++ 'T' :: padZ 2 dt.hour ++ ':' :: padZ 2 dt.minute ++ ':' :: padZ 2 dt.second
    ++ (if dt.usec.val = 0 then [] else '.' :: padZ 6 dt.usec.val)

/-- Number of fractional-second digits of a rendered timestamp: the digit run
after the (first) dot. -/
def secFracLen (s : String) : Nat :=
  (((s.data.dropWhile (fun c => c != '.')).drop 1).takeWhile Char.isDigit).length

/-! ## The transaction record and its generator -/

/-- An exact decimal literal: what a coordinate float ends up as in the JSON
text. -/
structure DecLit where
  neg : Bool
  ip : Nat
  frac : List (Fin 10)
deriving DecidableEq

/-- One oracle field per random draw `generate_transaction` makes, in source
order. -/
structure Oracle where
  txUuid : String
  now : PyDateTime
  custSeed : Nat
  custName : String
  custEmail : String
  typeSeed : Nat
  catSeed : Nat
  amountSeed : ℚ
  currSeed : Nat
  statusSeed : Nat
  merchSeed : Nat
  merchName : String
  city : String
  country : String
  lat : DecLit
  lng : DecLit
  paySeed : Nat
  devSeed : Nat
  ipAddr : String
  userAgent : String
  sessUuid : String
  refUrl : String
  campSeed : Nat

/-- The nested `location` struct of a record. -/
structure LocationRec where
  city : String
  country : String
  latitude : DecLit
  longitude : DecLit

/-- The nested `metadata` struct of a record. -/
structure MetadataRec where
  session_id : String
  referrer : String
  campaign_id : String

/-- One generated transaction record, field for field. -/
structure Transaction where
  transaction_id : String
  timestamp : String
  customer_id : String
  customer_name : String
  customer_email : String
  transaction_type : String
  category : String
  amount : ℚ
  currency : String
  status : String
  merchant_id : String
  merchant_name : String
  location : LocationRec
  payment_method : String
  device_type : String
  ip_address : String
  user_agent : String
  metadata : MetadataRec

/-- The `transaction_types` list of the source. -/
def transactionTypes : List String :=
  ["purchase", "refund", "payment", "transfer", "deposit", "withdrawal"]

/-- The `categories` list of the source. -/
def categories : List String :=
  ["electronics", "clothing", "food", "services", "utilities", "entertainment"]

/-- The `statuses` list of the source. -/
def statuses : List String :=
  ["completed", "pending", "failed", "processing"]

/-- The currency list of the source. -/
def currencies : List String := ["USD", "EUR", "GBP"]

/-- The payment-method list of the source. -/
def paymentMethods : List String :=
  ["credit_card", "debit_card", "paypal", "bank_transfer", "cash"]

/-- The device-type list of the source. -/
def deviceTypes : List String := ["mobile", "web", "pos", "atm"]

/-- Models `generate_transaction()` given the oracle of its random draws. -/
def generate_transaction (o : Oracle) : Transaction :=
  { transaction_id := o.txUuid
    timestamp := String.mk (isoformat o.now ++ ['Z'])
    customer_id := "CUST-" ++ natStr (pyRandint 10000 99999 o.custSeed)
    customer_name := o.custName
    customer_email := o.custEmail
    transaction_type := pyChoice transactionTypes o.typeSeed
    category := pyChoice categories o.catSeed
    amount := pyRound2 (pyUniform 10 5000 o.amountSeed)
    currency := pyChoice currencies o.currSeed
    status := pyChoice statuses o.statusSeed
    merchant_id := "MERCH-" ++ natStr (pyRandint 1000 9999 o.merchSeed)
    merchant_name := o.merchName
    location := ⟨o.city, o.country, o.lat, o.lng⟩
    payment_method := pyChoice paymentMethods o.paySeed
    device_type := pyChoice deviceTypes o.devSeed
    ip_address := o.ipAddr
    user_agent := o.userAgent
    metadata := ⟨o.sessUuid, o.refUrl, "CAMP-" ++ natStr (pyRandint 100 999 o.campSeed)⟩ }

/-- JSON number of a coordinate decimal literal. -/
def decLitJson (d : DecLit) : Json := Json.num d.neg d.ip d.frac

/-- JSON number of a two-decimal amount, shaped like the float `repr` the
serializer sees: `10.0`, `10.5`, `10.55`, `10.05`. -/
def ratJson (q : ℚ) : Json :=
  let k : ℤ := ⌊q * 100⌋
  let m : Nat := k.natAbs
  let r : Nat := m % 100
  Json.num (decide (k < 0)) (m / 100)
    (if r = 0 then [⟨0, by omega⟩]
     else if r % 10 = 0 then [⟨r / 10 % 10, by omega⟩]
     else [⟨r / 10 % 10, by omega⟩, ⟨r % 10, by omega⟩])

/-- The JSON object (Python dict) of a record, keys in source order. -/
def Transaction.toJson (t : Transaction) : Json :=
  Json.obj
    (Members.cons "transaction_id" (Json.str t.transaction_id)
    (Members.cons "timestamp" (Json.str t.timestamp)
    (Members.cons "customer_id" (Json.str t.customer_id)
    (Members.cons "customer_name" (Json.str t.customer_name)
    (Members.cons "customer_email" (Json.str t.customer_email)
    (Members.cons "transaction_type" (Json.str t.transaction_type)
    (Members.cons "category" (Json.str t.category)
    (Members.cons "amount" (ratJson t.amount)
    (Members.cons "currency" (Json.str t.currency)
    (Members.cons "status" (Json.str t.status)
    (Members.cons "merchant_id" (Json.str t.merchant_id)
    (Members.cons "merchant_name" (Json.str t.merchant_name)
    (Members.cons "location"
      (Json.obj
        (Members.cons "city" (Json.str t.location.city)
        (Members.cons "country" (Json.str t.location.country)
        (Members.cons "latitude" (decLitJson t.location.latitude)
        (Members.cons "longitude" (decLitJson t.location.longitude)
          Members.nil)))))
    (Members.cons "payment_method" (Json.str t.payment_method)
    (Members.cons "device_type" (Json.str t.device_type)
    (Members.cons "ip_address" (Json.str t.ip_address)
    (Members.cons "user_agent" (Json.str t.user_agent)
    (Members.cons "metadata"
      (Json.obj
        (Members.cons "session_id" (Json.str t.metadata.session_id)
        (Members.cons "referrer" (Json.str t.metadata.referrer)
        (Members.cons "campaign_id" (Json.str t.metadata.campaign_id)
          Members.nil))))
      Members.nil))))))))))))))))))

/-- Top-level keys of a JSON object. -/
def memberKeys : Members → List String
  | .nil => []
  | .cons k _ m => k :: memberKeys m

/-- What `send_message` did: the queue-handle steps it performed, whether it
raised, and the bytes handed to `queue.put`. -/
structure SendOutcome where
  steps : List MQStep
  raised : Bool
  payload : List Nat
deriving DecidableEq

/-- Models `send_message(qmgr, queue_name, message_data)`: open the queue,
serialize, put the UTF-8 payload, close — with no `try/finally`, so a raising
constructor or `put` skips everything after it. -/
def send_message (openFails putFails : Bool) (v : Json) : SendOutcome :=
  if openFails then ⟨[MQStep.openQueue], true, []⟩
  else if putFails then
    ⟨[MQStep.openQueue, MQStep.putMsg], true, utf8Encode (jsonDumps v).data⟩
  else
    ⟨[MQStep.openQueue, MQStep.putMsg, MQStep.closeQueue], false,
      utf8Encode (jsonDumps v).data⟩

/-- The string `s` is `tag` followed by exactly `k` decimal digits. -/
def tagDigits (tag : String) (k : Nat) (s : String) : Prop :=
  ∃ ds : List Char, s = tag ++ String.mk ds ∧ ds.length = k ∧ ∀ c ∈ ds, c.isDigit = true

/-- Top-level keys of a JSON value (objects only). -/
def topKeys : Json → List String
  | Json.obj m => memberKeys m
  | _ => []

/-- Look up a key among object members (first match). -/
def memberFind (k : String) : Members → Option Json
  | .nil => none
  | .cons k2 v m => if k2 = k then some v else memberFind k m

/-- Look up a key in a JSON object. -/
def objField : Json → String → Option Json
  | Json.obj m, k => memberFind k m
  | _, _ => none

/-- A concrete oracle whose clock reads an instant with nonzero microseconds
(`2026-10-12T08:30:59.123456`). -/
def oracle9 : Oracle :=
  { txUuid := "d1"
    now := ⟨2026, 10, 12, 8, 30, 59, ⟨123456, by omega⟩⟩
    custSeed := 0
    custName := "n"
    custEmail := "e"
    typeSeed := 0
    catSeed := 0
    amountSeed := 0
    currSeed := 0
    statusSeed := 0
    merchSeed := 0
    merchName := "m"
    city := "c"
    country := "c"
    lat := ⟨false, 1, []⟩
    lng := ⟨true, 2, [⟨5, by omega⟩]⟩
    paySeed := 0
    devSeed := 0
    ipAddr := "i"
    userAgent := "u"
    sessUuid := "s"
    refUrl := "r"
    campSeed := 0 }

/-- The remainder after a printed number may not begin with a digit or a dot
(true of every context a number occupies in the printed layout: end of input,
comma, or newline). -/
def numStop : List Char → Prop
  | [] => True
  | c :: _ => c.isDigit = false ∧ c ≠ '.'

/-! # Part 2: theorems -/

theorem decDigit_isDigit : ∀ d : Nat, d < 10 → (decDigit d).isDigit = true := by
  decide

theorem digitVal_decDigit : ∀ d : Nat, d < 10 → digitVal (decDigit d) = d := by
  decide

theorem natDigitsGo_acc : ∀ fuel n acc,
    natDigitsGo fuel n acc = natDigitsGo fuel n [] ++ acc := by
  intro fuel
  induction fuel with
  | zero => intro n acc; simp [natDigitsGo]
  | succ f ih =>
    intro n acc
    by_cases h : n < 10
    · simp [natDigitsGo, h]
    · simp only [natDigitsGo, if_neg h]
      rw [ih (n / 10) (decDigit (n % 10) :: acc), ih (n / 10) [decDigit (n % 10)]]
      simp

theorem natDigitsGo_ne_nil : ∀ fuel n acc, natDigitsGo fuel n acc ≠ [] := by
  intro fuel
  induction fuel with
  | zero => intro n acc; simp [natDigitsGo]
  | succ f ih =>
    intro n acc
    by_cases h : n < 10
    · simp [natDigitsGo, h]
    · simp only [natDigitsGo, if_neg h]
      exact ih (n / 10) _

theorem natDigitsGo_all_digit : ∀ fuel n, n ≤ fuel →
    ∀ c ∈ natDigitsGo fuel n [], c.isDigit = true := by
  intro fuel
  induction fuel with
  | zero =>
    intro n hn c hc
    interval_cases n
    simp only [natDigitsGo, List.mem_singleton] at hc
    subst hc; exact decDigit_isDigit 0 (by omega)
  | succ f ih =>
    intro n hn c hc
    by_cases h : n < 10
    · simp only [natDigitsGo, if_pos h, List.mem_singleton] at hc
      subst hc; exact decDigit_isDigit n h
    · simp only [natDigitsGo, if_neg h] at hc
      rw [natDigitsGo_acc] at hc
      rcases List.mem_append.mp hc with h1 | h1
      · exact ih (n / 10) (by omega) c h1
      · simp only [List.mem_singleton] at h1
        subst h1; exact decDigit_isDigit _ (Nat.mod_lt _ (by omega))

theorem natDigitsGo_length : ∀ k fuel n, n ≤ fuel → 10 ^ k ≤ n → n < 10 ^ (k + 1) →
    (natDigitsGo fuel n []).length = k + 1 := by
  intro k
  induction k with
  | zero =>
    intro fuel n hf hlo hhi
    simp only [pow_zero, pow_one] at hlo hhi
    have h10 : n < 10 := by simpa using hhi
    cases fuel with
    | zero => simp [natDigitsGo]
    | succ f => simp [natDigitsGo, h10]
  | succ k ih =>
    intro fuel n hf hlo hhi
    have h10 : ¬ n < 10 := by
      have : (10 : Nat) ≤ 10 ^ (k + 1) := by
        calc (10 : Nat) = 10 ^ 1 := (pow_one 10).symm
        _ ≤ 10 ^ (k + 1) := Nat.pow_le_pow_right (by omega) (by omega)
      omega
    cases fuel with
    | zero => omega
    | succ f =>
      simp only [natDigitsGo, if_neg h10]
      rw [natDigitsGo_acc]
      have hdivlo : 10 ^ k ≤ n / 10 := by
        rw [Nat.le_div_iff_mul_le (by omega)]
        calc 10 ^ k * 10 = 10 ^ (k + 1) := by ring
        _ ≤ n := hlo
      have hdivhi : n / 10 < 10 ^ (k + 1) := by
        rw [Nat.div_lt_iff_lt_mul (by omega)]
        calc n < 10 ^ (k + 1 + 1) := hhi
        _ = 10 ^ (k + 1) * 10 := by ring
      rw [List.length_append, ih f (n / 10) (by omega) hdivlo hdivhi]
      simp

theorem natDigitsGo_length_le : ∀ k fuel n, 1 ≤ k → n ≤ fuel → n < 10 ^ k →
    (natDigitsGo fuel n []).length ≤ k := by
  intro k
  induction k with
  | zero => omega
  | succ k ih =>
    intro fuel n _ hf hhi
    by_cases h : n < 10
    · cases fuel with
      | zero => simp [natDigitsGo]
      | succ f => simp [natDigitsGo, h]
    · cases fuel with
      | zero => omega
      | succ f =>
        simp only [natDigitsGo, if_neg h]
        rw [natDigitsGo_acc, List.length_append]
        have hk : 1 ≤ k := by
          by_contra hk0
          have hkz : k = 0 := by omega
          subst hkz
          have : n < 10 := by simpa using hhi
          omega
        have hdivhi : n / 10 < 10 ^ k := by
          rw [Nat.div_lt_iff_lt_mul (by omega)]
          calc n < 10 ^ (k + 1) := hhi
          _ = 10 ^ k * 10 := by ring
        have := ih f (n / 10) hk (by omega) hdivhi
        have hone : ([decDigit (n % 10)] : List Char).length = 1 := rfl
        omega

theorem digitsVal_go : ∀ fuel n a, n ≤ fuel →
    (natDigitsGo fuel n []).foldl (fun b c => 10 * b + digitVal c) a
      = a * 10 ^ (natDigitsGo fuel n []).length + n := by
  intro fuel
  induction fuel with
  | zero =>
    intro n a hn
    interval_cases n
    simp only [natDigitsGo, List.foldl_cons, List.foldl_nil, List.length_cons,
      List.length_nil, digitVal_decDigit 0 (by omega)]
    ring
  | succ f ih =>
    intro n a hn
    by_cases h : n < 10
    · simp only [natDigitsGo, if_pos h, List.foldl_cons, List.foldl_nil,
        List.length_cons, List.length_nil, digitVal_decDigit n h]
      ring
    · simp only [natDigitsGo, if_neg h]
      rw [natDigitsGo_acc, List.foldl_append, List.length_append]
      rw [ih (n / 10) a (by omega)]
      simp only [List.foldl_cons, List.foldl_nil, List.length_singleton]
      rw [digitVal_decDigit (n % 10) (Nat.mod_lt _ (by omega))]
      have : a * 10 ^ ((natDigitsGo f (n / 10) []).length + 1)
          = a * 10 ^ (natDigitsGo f (n / 10) []).length * 10 := by ring
      rw [this]
      omega

theorem digitsVal_natDigits (n : Nat) : digitsVal (natDigits n) = n := by
  have := digitsVal_go n n 0 (le_refl n)
  simpa [digitsVal, natDigits] using this

theorem natDigits_all_digit (n : Nat) : ∀ c ∈ natDigits n, c.isDigit = true :=
  natDigitsGo_all_digit n n (le_refl n)

theorem natDigits_ne_nil (n : Nat) : natDigits n ≠ [] :=
  natDigitsGo_ne_nil n n []

theorem natDigits_length (k n : Nat) (hlo : 10 ^ k ≤ n) (hhi : n < 10 ^ (k + 1)) :
    (natDigits n).length = k + 1 :=
  natDigitsGo_length k n n (le_refl n) hlo hhi

theorem natDigits_length_le (k n : Nat) (hk : 1 ≤ k) (hhi : n < 10 ^ k) :
    (natDigits n).length ≤ k :=
  natDigitsGo_length_le k n n hk (le_refl n) hhi

theorem natDigits_head (n : Nat) :
    ∃ c t, natDigits n = c :: t ∧ c.isDigit = true := by
  cases h : natDigits n with
  | nil => exact absurd h (natDigits_ne_nil n)
  | cons c t =>
    refine ⟨c, t, rfl, ?_⟩
    exact natDigits_all_digit n c (h ▸ List.mem_cons_self c t)

/-! ## List helpers for run-parsing -/

theorem takeWhile_all_append {p : Char → Bool} : ∀ l r : List Char,
    (∀ c ∈ l, p c = true) →
    List.takeWhile p (l ++ r) = l ++ List.takeWhile p r := by
  intro l r hl
  induction l with
  | nil => simp
  | cons c t ih =>
    have hc : p c = true := hl c (List.mem_cons_self c t)
    simp only [List.cons_append, List.takeWhile_cons, hc, if_true]
    rw [ih (fun x hx => hl x (List.mem_cons_of_mem c hx))]

theorem dropWhile_all_append {p : Char → Bool} : ∀ l r : List Char,
    (∀ c ∈ l, p c = true) →
    List.dropWhile p (l ++ r) = List.dropWhile p r := by
  intro l r hl
  induction l with
  | nil => simp
  | cons c t ih =>
    have hc : p c = true := hl c (List.mem_cons_self c t)
    simp only [List.cons_append, List.dropWhile_cons, hc, if_true]
    exact ih (fun x hx => hl x (List.mem_cons_of_mem c hx))

theorem takeWhile_stop {p : Char → Bool} {c : Char} {t : List Char}
    (h : p c = false) : List.takeWhile p (c :: t) = [] := by
  simp [List.takeWhile_cons, h]

theorem dropWhile_stop {p : Char → Bool} {c : Char} {t : List Char}
    (h : p c = false) : List.dropWhile p (c :: t) = c :: t := by
  simp [List.dropWhile_cons, h]

theorem pyRandint_bounds (a b seed : Nat) (hab : a ≤ b) :
    a ≤ pyRandint a b seed ∧ pyRandint a b seed ≤ b := by
  unfold pyRandint
  have := Nat.mod_lt seed (y := b - a + 1) (by omega)
  omega

theorem pyChoice_mem (l : List String) (seed : Nat) (h : l ≠ []) :
    pyChoice l seed ∈ l := by
  unfold pyChoice
  have hlen : 0 < l.length := List.length_pos.mpr h
  have hidx : seed % l.length < l.length := Nat.mod_lt seed hlen
  rw [List.getD_eq_getElem l "" hidx]
  exact List.getElem_mem hidx

theorem pyUnit_bounds (t : ℚ) : 0 ≤ pyUnit t ∧ pyUnit t ≤ 1 := by
  constructor
  · exact le_max_left 0 _
  · exact max_le (by norm_num) (min_le_left 1 t)

theorem pyUniform_bounds (a b t : ℚ) (hab : a ≤ b) :
    a ≤ pyUniform a b t ∧ pyUniform a b t ≤ b := by
  obtain ⟨h0, h1⟩ := pyUnit_bounds t
  unfold pyUniform
  constructor
  · nlinarith
  · nlinarith

theorem roundHalfEven_bounds (q : ℚ) (lo hi : ℤ) (hlo : (lo : ℚ) ≤ q)
    (hhi : q ≤ (hi : ℚ)) : lo ≤ roundHalfEven q ∧ roundHalfEven q ≤ hi := by
  unfold roundHalfEven
  have hfl : lo ≤ ⌊q⌋ := Int.le_floor.mpr hlo
  have hfu : (⌊q⌋ : ℚ) ≤ q := Int.floor_le q
  have hceil : (⌊q⌋ : ℚ) ≤ (hi : ℚ) := le_trans hfu hhi
  have hfhi : ⌊q⌋ ≤ hi := by exact_mod_cast hceil
  by_cases h1 : q - ⌊q⌋ < 1 / 2
  · simp only [if_pos h1]
    exact ⟨hfl, hfhi⟩
  · simp only [if_neg h1]
    have hlt : ⌊q⌋ < hi ∨ ⌊q⌋ = hi := lt_or_eq_of_le hfhi
    have hstep : (q - ⌊q⌋) ≥ 1 / 2 := le_of_not_lt h1
    have hne : ⌊q⌋ + 1 ≤ hi := by
      rcases hlt with h | h
      · omega
      · exfalso
        have : (hi : ℚ) ≤ q - 1 / 2 := by
          rw [← h]
          linarith
        linarith
    by_cases h2 : 1 / 2 < q - ⌊q⌋
    · simp only [if_pos h2]
      exact ⟨by omega, hne⟩
    · simp only [if_neg h2]
      by_cases h3 : Even ⌊q⌋
      · simp only [if_pos h3]
        exact ⟨hfl, hfhi⟩
      · simp only [if_neg h3]
        exact ⟨by omega, hne⟩

theorem pyRound2_bounds (q : ℚ) (hlo : (10 : ℚ) ≤ q) (hhi : q ≤ (5000 : ℚ)) :
    (10 : ℚ) ≤ pyRound2 q ∧ pyRound2 q ≤ 5000 ∧ ∃ k : ℤ, pyRound2 q * 100 = (k : ℚ) := by
  have h1 : ((1000 : ℤ) : ℚ) ≤ q * 100 := by push_cast; linarith
  have h2 : q * 100 ≤ ((500000 : ℤ) : ℚ) := by push_cast; linarith
  obtain ⟨ha, hb⟩ := roundHalfEven_bounds (q * 100) 1000 500000 h1 h2
  unfold pyRound2
  refine ⟨?_, ?_, ⟨roundHalfEven (q * 100), by field_simp⟩⟩
  · have : ((1000 : ℤ) : ℚ) ≤ (roundHalfEven (q * 100) : ℚ) := by exact_mod_cast ha
    push_cast at this ⊢
    linarith
  · have : (roundHalfEven (q * 100) : ℚ) ≤ ((500000 : ℤ) : ℚ) := by exact_mod_cast hb
    push_cast at this ⊢
    linarith

/-! ## Loop lemmas -/

theorem countAct_append (a : ProdAct) : ∀ l r : List ProdAct,
    countAct a (l ++ r) = countAct a l + countAct a r := by
  intro l r
  induction l with
  | nil => simp [countAct]
  | cons b t ih => simp [countAct, ih]; omega

theorem runIters_count_eq : ∀ (evs : List IterOutcome) (c : Nat),
    (runIters c evs).count = c + countAct ProdAct.publishSuccess (runIters c evs).trace := by
  intro evs
  induction evs with
  | nil => intro c; simp [runIters, countAct]
  | cons e rest ih =>
    intro c
    cases e with
    | completed ok =>
      cases ok <;> simp [runIters, countAct, ih] <;> omega
    | sleepInterrupt ok =>
      cases ok <;> simp [runIters, countAct]
    | genInterrupt => simp [runIters, countAct]
    | bodyError => simp [runIters, countAct]

theorem runIters_stopped_of_interrupt : ∀ (pre : List Bool) (c : Nat) (ok : Bool),
    (runIters c (pre.map IterOutcome.completed ++ [IterOutcome.sleepInterrupt ok])).stopped
      = true := by
  intro pre
  induction pre with
  | nil => intro c ok; simp [runIters]
  | cons b t ih =>
    intro c ok
    simp only [List.map_cons, List.cons_append, runIters]
    exact ih _ ok

/-- Claim C10: the `message_count` counter is an exact running tally of the
successful publishes — starting from any count `c`, after any sequence of
iteration outcomes the counter equals `c` plus the number of `publishSuccess`
actions in the trace produced (so it is incremented exactly once per
successful publish and untouched by failed publishes, generation, sleeping and
shutdown); at `main` level it counts the successful publishes of the whole
run, and the shutdown summary, printed exactly when the loop was exited,
reports exactly this value. -/
theorem c10_counter_invariant (evs : List IterOutcome) (c : Nat) :
    (runIters c evs).count
        = c + countAct ProdAct.publishSuccess (runIters c evs).trace
    ∧ (pymain true none evs).count
        = countAct ProdAct.publishSuccess (pymain true none evs).trace
    ∧ (pymain true none evs).summary
        = (if (pymain true none evs).loopExited then some ((pymain true none evs).count)
           else none) := by
  refine ⟨runIters_count_eq evs c, ?_, ?_⟩
  · have h := runIters_count_eq evs 0
    by_cases hs : (runIters 0 evs).stopped
    · simp [pymain, hs, countAct, countAct_append, h]
    · simp [pymain, hs, countAct, h]
  · by_cases hs : (runIters 0 evs).stopped
    · simp [pymain, hs, finallyBlock]
    · simp [pymain, hs]

/-- Claim C4: with a good connection, a first publish that raises and a second
that succeeds, after the two iterations the counter is 1, the loop is still
running (neither exited nor disconnected), and the trace shows the failure
logged followed by the sleep and the next iteration. -/
theorem c4_publish_failure_contained :
    (pymain true none [IterOutcome.completed false, IterOutcome.completed true]).count = 1
    ∧ (pymain true none [IterOutcome.completed false, IterOutcome.completed true]).loopExited
        = false
    ∧ (pymain true none [IterOutcome.completed false, IterOutcome.completed true]).disconnectCalls
        = 0
    ∧ (pymain true none [IterOutcome.completed false, IterOutcome.completed true]).trace
        = [ProdAct.connectAttempt, ProdAct.connectOk, ProdAct.publishFailLogged,
           ProdAct.sleepDone, ProdAct.publishSuccess, ProdAct.sleepDone] := by
  refine ⟨rfl, rfl, rfl, rfl⟩

/-- Claim C5: if the connect raises, `main` logs the failure and returns: the
loop is never entered, no publish ever happens, the count is 0, the
disconnect is never called (the `try/finally` was not entered), and exactly
one connection attempt is made (no retry) — for every environment. -/
theorem c5_connect_failure_aborts (evs : List IterOutcome) (dc : Option DCErr) :
    pymain false dc evs
      = ⟨0, false, true, 0, none, [ProdAct.connectAttempt, ProdAct.connectFailLogged]⟩
    ∧ countAct ProdAct.connectAttempt (pymain false dc evs).trace = 1
    ∧ countAct ProdAct.publishSuccess (pymain false dc evs).trace = 0
    ∧ countAct ProdAct.publishFailLogged (pymain false dc evs).trace = 0
    ∧ countAct ProdAct.disconnectCall (pymain false dc evs).trace = 0 := by
  refine ⟨rfl, rfl, rfl, rfl, rfl⟩

/-- Claim C6: the `finally` block wraps `qmgr.disconnect()` in
`try: ... except: pass`, so no matter which error the disconnect raises
(including on an already-degraded or closed connection) nothing escapes the
shutdown path. -/
theorem c6_disconnect_never_escapes (count : Nat) (dc : Option DCErr) :
    (finallyBlock count dc).escaped = false := by
  cases dc <;> rfl

/-- Claim C7: when an interrupt arrives during the sleep, after any run of
completed iterations, the loop exits to the shutdown path, disconnect is
invoked exactly once (whatever the disconnect outcome), and the shutdown
summary reports exactly the number of successful publishes of the run. -/
theorem c7_interrupt_shutdown (pre : List Bool) (ok : Bool) (dc : Option DCErr) :
    (pymain true dc
        (pre.map IterOutcome.completed ++ [IterOutcome.sleepInterrupt ok])).disconnectCalls
      = 1
    ∧ (pymain true dc
        (pre.map IterOutcome.completed ++ [IterOutcome.sleepInterrupt ok])).loopExited
      = true
    ∧ (pymain true none
        (pre.map IterOutcome.completed ++ [IterOutcome.sleepInterrupt ok])).summary
      = some (countAct ProdAct.publishSuccess
          (pymain true none
            (pre.map IterOutcome.completed ++ [IterOutcome.sleepInterrupt ok])).trace) := by
  have hs := runIters_stopped_of_interrupt pre 0 ok
  have hc := runIters_count_eq (pre.map IterOutcome.completed ++ [IterOutcome.sleepInterrupt ok]) 0
  refine ⟨?_, ?_, ?_⟩
  · simp [pymain, hs]
  · simp [pymain, hs]
  · simp [pymain, hs, finallyBlock, countAct, countAct_append, hc]

/-! ## Record generator claims -/

theorem tagDigits_append (tag : String) (k n : Nat) (hlo : 10 ^ k ≤ n)
    (hhi : n < 10 ^ (k + 1)) : tagDigits tag (k + 1) (tag ++ natStr n) :=
  ⟨natDigits n, rfl, natDigits_length k n hlo hhi, natDigits_all_digit n⟩

/-- Claim C2: for every oracle, the generated `amount` lies in the closed
interval `[10.00, 5000.00]` and is an exact multiple of a hundredth
(`amount * 100` is an integer), i.e. it has (at most) two decimal places —
floats idealised as exact rationals, `round(x, 2)` as correct
round-half-to-even onto hundredths. -/
theorem c2_amount_range_two_decimals (o : Oracle) :
    (10 : ℚ) ≤ (generate_transaction o).amount
    ∧ (generate_transaction o).amount ≤ 5000
    ∧ ∃ k : ℤ, (generate_transaction o).amount * 100 = (k : ℚ) := by
  have hu := pyUniform_bounds 10 5000 o.amountSeed (by norm_num)
  have h := pyRound2_bounds (pyUniform 10 5000 o.amountSeed) hu.1 hu.2
  simpa [generate_transaction] using h

/-- Claim C1: every generated record carries all eighteen fields of the data
model (with the four location and three metadata subfields), each enum field
is drawn from its source list, and the three patterned identifiers are their
tag followed by exactly 5 / 4 / 3 decimal digits. -/
theorem c1_record_well_formed (o : Oracle) :
    (generate_transaction o).transaction_type ∈ transactionTypes
    ∧ (generate_transaction o).category ∈ categories
    ∧ (generate_transaction o).currency ∈ currencies
    ∧ (generate_transaction o).status ∈ statuses
    ∧ (generate_transaction o).payment_method ∈ paymentMethods
    ∧ (generate_transaction o).device_type ∈ deviceTypes
    ∧ tagDigits "CUST-" 5 (generate_transaction o).customer_id
    ∧ tagDigits "MERCH-" 4 (generate_transaction o).merchant_id
    ∧ tagDigits "CAMP-" 3 (generate_transaction o).metadata.campaign_id
    ∧ topKeys (generate_transaction o).toJson
        = ["transaction_id", "timestamp", "customer_id", "customer_name",
           "customer_email", "transaction_type", "category", "amount",
           "currency", "status", "merchant_id", "merchant_name", "location",
           "payment_method", "device_type", "ip_address", "user_agent",
           "metadata"]
    ∧ (objField (generate_transaction o).toJson "location").map topKeys
        = some ["city", "country", "latitude", "longitude"]
    ∧ (objField (generate_transaction o).toJson "metadata").map topKeys
        = some ["session_id", "referrer", "campaign_id"] := by
  refine ⟨?_, ?_, ?_, ?_, ?_, ?_, ?_, ?_, ?_, rfl, rfl, rfl⟩
  · exact pyChoice_mem transactionTypes o.typeSeed (by simp [transactionTypes])
  · exact pyChoice_mem categories o.catSeed (by simp [categories])
  · exact pyChoice_mem currencies o.currSeed (by simp [currencies])
  · exact pyChoice_mem statuses o.statusSeed (by simp [statuses])
  · exact pyChoice_mem paymentMethods o.paySeed (by simp [paymentMethods])
  · exact pyChoice_mem deviceTypes o.devSeed (by simp [deviceTypes])
  · have hb := pyRandint_bounds 10000 99999 o.custSeed (by omega)
    exact tagDigits_append "CUST-" 4 _ (by push_cast; omega) (by push_cast; omega)
  · have hb := pyRandint_bounds 1000 9999 o.merchSeed (by omega)
    exact tagDigits_append "MERCH-" 3 _ (by push_cast; omega) (by push_cast; omega)
  · have hb := pyRandint_bounds 100 999 o.campSeed (by omega)
    exact tagDigits_append "CAMP-" 2 _ (by push_cast; omega) (by push_cast; omega)

/-! ## Timestamp claims -/

theorem data_mk (l : List Char) : (String.mk l).data = l := rfl

theorem digit_ne_dot {c : Char} (h : c.isDigit = true) : (c != '.') = true := by
  by_cases hc : c = '.'
  · subst hc; exact absurd h (by decide)
  · simp [hc]

theorem padZ_all_digit (w n : Nat) : ∀ c ∈ padZ w n, c.isDigit = true := by
  intro c hc
  rcases List.mem_append.mp hc with h | h
  · rw [List.eq_of_mem_replicate h]; decide
  · exact natDigits_all_digit n c h

theorem padZ_len (w n : Nat) (hw : 1 ≤ w) (h : n < 10 ^ w) :
    (padZ w n).length = w := by
  have hle := natDigits_length_le w n hw h
  simp only [padZ, List.length_append, List.length_replicate]
  omega

theorem secFracLen_mk_iso (dt : PyDateTime) :
    secFracLen (String.mk (isoformat dt ++ ['Z']))
      = if dt.usec.val = 0 then 0 else 6 := by
  have hdrop : ∀ (w n : Nat) (r : List Char),
      List.dropWhile (fun c => c != '.') (padZ w n ++ r)
        = List.dropWhile (fun c => c != '.') r := by
    intro w n r
    exact dropWhile_all_append _ _ (fun c hc => digit_ne_dot (padZ_all_digit w n c hc))
  have hsep : ∀ (c : Char) (r : List Char), (c != '.') = true →
      List.dropWhile (fun c => c != '.') (c :: r)
        = List.dropWhile (fun c => c != '.') r := by
    intro c r hc
    simp [List.dropWhile_cons, hc]
  unfold secFracLen isoformat
  rw [data_mk]
  simp only [List.append_assoc, List.cons_append]
  rw [hdrop, hsep '-' _ (by decide), hdrop, hsep '-' _ (by decide), hdrop,
    hsep 'T' _ (by decide), hdrop, hsep ':' _ (by decide), hdrop,
    hsep ':' _ (by decide), hdrop]
  by_cases hu : dt.usec.val = 0
  · simp only [hu, if_pos rfl, List.nil_append]
    simp [List.dropWhile_cons]
  · simp only [if_neg hu, List.cons_append]
    rw [dropWhile_stop (by decide)]
    simp only [List.drop_succ_cons, List.drop_zero]
    rw [takeWhile_all_append _ _ (padZ_all_digit 6 _), takeWhile_stop (by decide)]
    rw [List.append_nil]
    refine padZ_len 6 _ (by omega) ?_
    have := dt.usec.isLt
    norm_num

/-- Claim C9 counterexample: at the concrete instant `oracle9` (microseconds
123456) the generated timestamp carries six fractional-second digits, which is
neither millisecond (three digits) nor second (none) precision — refuting the
claimed precision; the code emits `datetime.utcnow().isoformat()`, which is
microsecond precision whenever the microsecond field is nonzero. -/
theorem c9_counterexample :
    secFracLen (generate_transaction oracle9).timestamp = 6
    ∧ ¬ (secFracLen (generate_transaction oracle9).timestamp = 3
         ∨ secFracLen (generate_transaction oracle9).timestamp = 0) := by
  decide

/-- Claim C9 (amended): every generated timestamp is
`datetime.utcnow().isoformat()` with a trailing `"Z"` appended — an ISO-8601
UTC string of the generation instant — whose seconds fraction has microsecond
precision (six digits) when the clock's microsecond field is nonzero and
second precision (no fraction) when it is zero; never millisecond
precision. -/
theorem c9_timestamp_format (o : Oracle) :
    (generate_transaction o).timestamp = String.mk (isoformat o.now ++ ['Z'])
    ∧ (generate_transaction o).timestamp.data.getLast? = some 'Z'
    ∧ secFracLen (generate_transaction o).timestamp
        = (if o.now.usec.val = 0 then 0 else 6) := by
  refine ⟨rfl, ?_, secFracLen_mk_iso o.now⟩
  exact List.getLast?_concat _

/-! ## Publish-operation claims -/

/-- Claim C8 counterexample: a publish whose `queue.put` raises never reaches
`queue.close()` — `send_message` has no `try/finally` — so on a failing write
the call raises with the queue handle left open, refuting the
"including calls whose write fails" part of the claim. -/
theorem c8_counterexample :
    (send_message false true (Json.obj Members.nil)).raised = true
    ∧ MQStep.closeQueue ∉ (send_message false true (Json.obj Members.nil)).steps := by
  decide

/-- Claim C8 (amended): every call builds a fresh queue handle first (so no
handle is cached or reused across iterations); a call whose put succeeds
opens, writes and closes in order before returning; a call whose put raises
opens and writes but does not close; a call whose open raises does nothing
further. -/
theorem c8_per_call_queue_lifecycle (openFails putFails : Bool) (v : Json) :
    (send_message openFails putFails v).steps.head? = some MQStep.openQueue
    ∧ (send_message false false v).steps
        = [MQStep.openQueue, MQStep.putMsg, MQStep.closeQueue]
    ∧ (send_message false false v).raised = false
    ∧ (send_message false true v).steps = [MQStep.openQueue, MQStep.putMsg]
    ∧ (send_message false true v).raised = true
    ∧ (send_message true putFails v).steps = [MQStep.openQueue] := by
  cases openFails <;> cases putFails <;> exact ⟨rfl, rfl, rfl, rfl, rfl, rfl⟩

/-! ## String-literal codec -/

theorem mk_data (s : String) : String.mk s.data = s := rfl

theorem char_valid_nat (c : Char) : c.toNat.isValidChar := c.valid

theorem mkChar_toNat (c : Char) : mkChar c.toNat = some c := by
  simp [mkChar, char_valid_nat c, Char.ofNat_toNat]

theorem hexVal_hexDigit : ∀ d : Nat, d < 16 → hexVal (hexDigit d) = some d := by
  decide

theorem hexSpread (n : Nat) (h : n < 65536) :
    (n / 4096 % 16) * 4096 + (n / 256 % 16) * 256 + (n / 16 % 16) * 16 + n % 16
      = n := by
  omega


theorem hex4Val_hexDigits (n : Nat) (hn : n < 65536) :
    hex4Val (hexDigit (n / 4096 % 16)) (hexDigit (n / 256 % 16))
      (hexDigit (n / 16 % 16)) (hexDigit (n % 16)) = some n := by
  have h1 : n / 4096 % 16 < 16 := by omega
  have h2 : n / 256 % 16 < 16 := by omega
  have h3 : n / 16 % 16 < 16 := by omega
  have h4 : n % 16 < 16 := by omega
  simp only [hex4Val, hexVal_hexDigit _ h1, hexVal_hexDigit _ h2,
    hexVal_hexDigit _ h3, hexVal_hexDigit _ h4]
  congr 1
  omega

theorem readHex4_hex4 (n : Nat) (hn : n < 65536) (k : List Char) :
    readHex4 (hex4 n ++ k) = some (n, k) := by
  simp only [hex4, List.cons_append, List.nil_append, readHex4,
    hex4Val_hexDigits n hn]

theorem strBody_succ (fuel : Nat) (cs : List Char) :
    strBody (fuel + 1) cs = strBodyStep (strBody fuel) cs := rfl

theorem strBody_esc_step (c : Char) (k : List Char) (fuel : Nat) :
    strBody (fuel + 1) (escChar c ++ k) = consFst c (strBody fuel k) := by
  have hv := char_valid_nat c
  rw [strBody_succ]
  unfold escChar
  by_cases h1 : c = '"'
  · subst h1; simp [strBodyStep, escapedChar]
  by_cases h2 : c = '\\'
  · subst h2; simp [strBodyStep, escapedChar]
  by_cases h3 : c = Char.ofNat 8
  · subst h3; simp [strBodyStep, escapedChar]
  by_cases h4 : c = '\t'
  · subst h4; simp [strBodyStep, escapedChar]
  by_cases h5 : c = '\n'
  · subst h5; simp [strBodyStep, escapedChar]
  by_cases h6 : c = Char.ofNat 12
  · subst h6; simp [strBodyStep, escapedChar]
  by_cases h7 : c = '\r'
  · subst h7; simp [strBodyStep, escapedChar]
  by_cases h8 : 32 ≤ c.toNat ∧ c.toNat ≤ 126
  · simp only [if_neg h1, if_neg h2, if_neg h3, if_neg h4, if_neg h5, if_neg h6,
      if_neg h7, if_pos h8, List.cons_append, List.nil_append]
    simp [strBodyStep, h1, h2]
    omega
  by_cases h9 : c.toNat < 65536
  · simp only [if_neg h1, if_neg h2, if_neg h3, if_neg h4, if_neg h5, if_neg h6,
      if_neg h7, if_neg h8, if_pos h9, List.cons_append]
    have hns : ¬ (55296 ≤ c.toNat ∧ c.toNat ≤ 56319) := by
      rcases hv with h | h <;> omega
    simp [strBodyStep, readHex4_hex4 c.toNat h9 k, hns, mkChar_toNat c]
  · simp only [if_neg h1, if_neg h2, if_neg h3, if_neg h4, if_neg h5, if_neg h6,
      if_neg h7, if_neg h8, if_neg h9, List.cons_append, List.append_assoc,
      List.nil_append]
    have hcv : c.toNat < 1114112 := by rcases hv with h | h <;> omega
    have hhi : 55296 ≤ 55296 + (c.toNat - 65536) / 1024
        ∧ 55296 + (c.toNat - 65536) / 1024 ≤ 56319 := by omega
    have hlo : 56320 ≤ 56320 + (c.toNat - 65536) % 1024
        ∧ 56320 + (c.toNat - 65536) % 1024 ≤ 57343 := by omega
    have hh16 : 55296 + (c.toNat - 65536) / 1024 < 65536 := by omega
    have hl16 : 56320 + (c.toNat - 65536) % 1024 < 65536 := by omega
    have hback : 65536 + (55296 + (c.toNat - 65536) / 1024 - 55296) * 1024
        + (56320 + (c.toNat - 65536) % 1024 - 56320) = c.toNat := by omega
    simp only [strBodyStep, if_neg (by decide : ¬ ('\\' : Char) = '"'),
      if_pos (rfl : ('\\' : Char) = '\\'), if_pos (rfl : ('u' : Char) = 'u'),
      readHex4_hex4 _ hh16, if_pos hhi, List.cons_append,
      if_pos (⟨rfl, rfl⟩ : ('\\' : Char) = '\\' ∧ ('u' : Char) = 'u'),
      readHex4_hex4 _ hl16, if_pos hlo, hback, mkChar_toNat c]
    simp

theorem escChar_len_pos (c : Char) : 1 ≤ (escChar c).length := by
  unfold escChar
  split_ifs <;> simp [hex4]

theorem escStr_len_ge : ∀ l : List Char, l.length ≤ (escStr l).length := by
  intro l
  induction l with
  | nil => simp [escStr]
  | cons c cs ih =>
    have := escChar_len_pos c
    simp only [escStr, List.length_append, List.length_cons]
    omega

theorem strBody_escStr : ∀ (l k : List Char) (fuel : Nat),
    l.length + 1 ≤ fuel → strBody fuel (escStr l ++ '"' :: k) = some (l, k) := by
  intro l
  induction l with
  | nil =>
    intro k fuel hf
    cases fuel with
    | zero => omega
    | succ f =>
      have he : escStr [] ++ '"' :: k = '"' :: k := by simp [escStr]
      rw [he, strBody_succ]
      simp [strBodyStep]
  | cons c cs ih =>
    intro k fuel hf
    cases fuel with
    | zero => simp at hf
    | succ f =>
      rw [escStr, List.append_assoc, strBody_esc_step]
      simp only [List.length_cons] at hf
      rw [ih k f (by omega)]
      rfl

theorem strBody_quote (l rest : List Char) :
    strBody (escStr l ++ '"' :: rest).length (escStr l ++ '"' :: rest)
      = some (l, rest) := by
  apply strBody_escStr
  have := escStr_len_ge l
  simp only [List.length_append, List.length_cons]
  omega

/-! ## Number codec -/

theorem charToFin_decDigit : ∀ d : Fin 10, charToFin (decDigit d.val) = d := by
  decide

theorem charToFin_map : ∀ fr : List (Fin 10),
    (fr.map (fun d => decDigit d.val)).map charToFin = fr := by
  intro fr
  induction fr with
  | nil => rfl
  | cons d ds ih => simp [ih, charToFin_decDigit d]

theorem fracMap_all_digit (fr : List (Fin 10)) :
    ∀ c ∈ fr.map (fun d => decDigit d.val), c.isDigit = true := by
  intro c hc
  rcases List.mem_map.mp hc with ⟨d, _, rfl⟩
  exact decDigit_isDigit d.val d.isLt

theorem takeWhile_digits_of_stop {r : List Char} (h : numStop r) :
    List.takeWhile Char.isDigit r = [] ∧ List.dropWhile Char.isDigit r = r := by
  cases r with
  | nil => simp
  | cons c t =>
    obtain ⟨hd, _⟩ := h
    exact ⟨takeWhile_stop hd, dropWhile_stop hd⟩

theorem numCore_print (ip : Nat) (frac : List (Fin 10)) (rest : List Char)
    (hstop : numStop rest) :
    numCore (natDigits ip ++ (fracChars frac ++ rest)) = some ((ip, frac), rest) := by
  obtain ⟨htw, hdw⟩ := takeWhile_digits_of_stop hstop
  cases frac with
  | nil =>
    simp only [fracChars, List.nil_append]
    unfold numCore
    rw [takeWhile_all_append _ _ (natDigits_all_digit ip),
      dropWhile_all_append _ _ (natDigits_all_digit ip), htw, hdw, List.append_nil]
    simp only [List.isEmpty_eq_true, if_neg (natDigits_ne_nil ip)]
    cases rest with
    | nil => simp [digitsVal_natDigits]
    | cons c t =>
      obtain ⟨_, hdot⟩ := hstop
      have : ¬ (c :: t) = '.' :: t := by simp [hdot]
      simp only [digitsVal_natDigits]
      split
      · rename_i heq
        injection heq with h1 h2
        exact absurd h1 hdot
      · rfl
  | cons d ds =>
    simp only [fracChars, List.cons_append]
    unfold numCore
    rw [takeWhile_all_append _ _ (natDigits_all_digit ip),
      dropWhile_all_append _ _ (natDigits_all_digit ip)]
    rw [takeWhile_stop (by decide : Char.isDigit '.' = false),
      dropWhile_stop (by decide : Char.isDigit '.' = false)]
    simp only [List.append_nil, List.isEmpty_eq_true, if_neg (natDigits_ne_nil ip)]
    rw [takeWhile_all_append _ _ (fracMap_all_digit (d :: ds)),
      dropWhile_all_append _ _ (fracMap_all_digit (d :: ds)), htw, hdw,
      List.append_nil]
    rw [digitsVal_natDigits, charToFin_map (d :: ds)]
    simp

/-! ## Whitespace and parser step lemmas -/

theorem skipWs_stop {c : Char} {cs : List Char} (h : isWsChar c = false) :
    skipWs (c :: cs) = c :: cs := by
  simp [skipWs, h]

theorem skipWs_all_append : ∀ (a cs : List Char),
    (∀ c ∈ a, isWsChar c = true) → skipWs (a ++ cs) = skipWs cs := by
  intro a cs ha
  induction a with
  | nil => simp
  | cons c t ih =>
    have hc : isWsChar c = true := ha c (List.mem_cons_self c t)
    simp only [List.cons_append, skipWs, hc, if_true]
    exact ih (fun x hx => ha x (List.mem_cons_of_mem c hx))

theorem skipWs_indent (lvl : Nat) (cs : List Char) :
    skipWs (indentC lvl ++ cs) = skipWs cs := by
  apply skipWs_all_append
  intro c hc
  rw [List.eq_of_mem_replicate hc]
  decide

theorem parseVal_succ (fuel : Nat) (cs : List Char) :
    parseVal (fuel + 1) cs = parseValStep (parseMems fuel) cs := rfl

theorem parseMems_succ (fuel : Nat) (cs : List Char) :
    parseMems (fuel + 1) cs = parseMemsStep (parseVal fuel) (parseMems fuel) cs := rfl

theorem parseValStep_ws (pm : List Char → Option (Members × List Char))
    (a cs : List Char) (ha : ∀ c ∈ a, isWsChar c = true) :
    parseValStep pm (a ++ cs) = parseValStep pm cs := by
  unfold parseValStep
  rw [skipWs_all_append a cs ha]

theorem parseVal_ws (fuel : Nat) (a cs : List Char)
    (ha : ∀ c ∈ a, isWsChar c = true) :
    parseVal fuel (a ++ cs) = parseVal fuel cs := by
  cases fuel with
  | zero => rfl
  | succ f => rw [parseVal_succ, parseVal_succ, parseValStep_ws _ _ _ ha]

theorem parseValStep_quote (pm : List Char → Option (Members × List Char))
    (cs1 : List Char) :
    parseValStep pm ('"' :: cs1)
      = (match strBody cs1.length cs1 with
         | some (body, cs2) => some (Json.str (String.mk body), cs2)
         | none => none) := by
  unfold parseValStep
  rw [skipWs_stop (by decide)]
  rfl

theorem parseValStep_brace (pm : List Char → Option (Members × List Char))
    (cs1 : List Char) :
    parseValStep pm ('{' :: cs1)
      = (match pm cs1 with
         | some (m, cs2) => some (Json.obj m, cs2)
         | none => none) := by
  unfold parseValStep
  rw [skipWs_stop (by decide)]
  rfl

theorem parseValStep_dash (pm : List Char → Option (Members × List Char))
    (cs1 : List Char) :
    parseValStep pm ('-' :: cs1)
      = (match numCore cs1 with
         | some ((ip, frac), cs2) => some (Json.num true ip frac, cs2)
         | none => none) := by
  unfold parseValStep
  rw [skipWs_stop (by decide)]
  rfl

theorem wsChar_not_digit {c : Char} (h : isWsChar c = true) :
    c.isDigit = false := by
  simp only [isWsChar, Bool.or_eq_true, decide_eq_true_eq] at h
  rcases h with ((h | h) | h) | h <;> subst h <;> decide

theorem digit_head_facts {c : Char} (h : c.isDigit = true) :
    isWsChar c = false ∧ c ≠ '"' ∧ c ≠ '{' ∧ c ≠ '-' ∧ c ≠ '}'
      ∧ c ≠ ':' ∧ c ≠ ',' ∧ c ≠ '.' := by
  refine ⟨?_, ?_, ?_, ?_, ?_, ?_, ?_, ?_⟩
  · by_cases hw : isWsChar c = true
    · exact absurd h (by simp [wsChar_not_digit hw])
    · simpa using hw
  all_goals intro hc
  all_goals subst hc
  all_goals exact absurd h (by decide)

theorem parseValStep_digit (pm : List Char → Option (Members × List Char))
    {c : Char} (cs1 : List Char) (hc : c.isDigit = true) :
    parseValStep pm (c :: cs1)
      = (match numCore (c :: cs1) with
         | some ((ip, frac), cs2) => some (Json.num false ip frac, cs2)
         | none => none) := by
  obtain ⟨hws, hq, hb, hd, _, _, _, _⟩ := digit_head_facts hc
  unfold parseValStep
  rw [skipWs_stop hws]
  rcases hmatch : numCore (c :: cs1) with _ | ⟨⟨ip, frac⟩, cs2⟩
  all_goals split
  all_goals first
    | rfl
    | (rename_i heq; injection heq with h1 h2; first
        | exact absurd h1 hq
        | exact absurd h1 hb
        | exact absurd h1 hd
        | (subst h1; subst h2; simp [hc, hmatch]))
    | (rename_i heq; cases heq)

theorem parseMemsStep_ws (pv : List Char → Option (Json × List Char))
    (pm : List Char → Option (Members × List Char))
    (a cs : List Char) (ha : ∀ c ∈ a, isWsChar c = true) :
    parseMemsStep pv pm (a ++ cs) = parseMemsStep pv pm cs := by
  unfold parseMemsStep
  rw [skipWs_all_append a cs ha]

theorem parseMemsStep_close (pv : List Char → Option (Json × List Char))
    (pm : List Char → Option (Members × List Char)) (cs1 : List Char) :
    parseMemsStep pv pm ('}' :: cs1) = some (Members.nil, cs1) := by
  unfold parseMemsStep
  rw [skipWs_stop (by decide)]
  rfl

theorem parseMemsStep_quote (pv : List Char → Option (Json × List Char))
    (pm : List Char → Option (Members × List Char)) (cs1 : List Char) :
    parseMemsStep pv pm ('"' :: cs1)
      = (match strBody cs1.length cs1 with
         | some (key, cs2) =>
           match skipWs cs2 with
           | ':' :: cs3 =>
             match pv cs3 with
             | some (v, cs4) =>
               match skipWs cs4 with
               | ',' :: cs5 =>
                 match pm cs5 with
                 | some (m, cs6) => some (Members.cons (String.mk key) v m, cs6)
                 | none => none
               | '}' :: cs5 => some (Members.cons (String.mk key) v Members.nil, cs5)
               | _ => none
             | none => none
           | _ => none
         | none => none) := by
  unfold parseMemsStep
  rw [skipWs_stop (by decide)]
  rfl

/-! ## Printed-layout equations and sizes -/

theorem printVal_str (lvl : Nat) (s : String) :
    printVal lvl (Json.str s) = quoteStr s := rfl

theorem printVal_num (lvl : Nat) (neg : Bool) (ip : Nat) (frac : List (Fin 10)) :
    printVal lvl (Json.num neg ip frac) = numChars neg ip frac := rfl

theorem printVal_obj_nil (lvl : Nat) :
    printVal lvl (Json.obj Members.nil) = ['{', '}'] := rfl

theorem printVal_obj_cons (lvl : Nat) (k : String) (v : Json) (m : Members) :
    printVal lvl (Json.obj (Members.cons k v m))
      = '{' :: '\n'
          :: (printMems (lvl + 1) (Members.cons k v m)
            ++ '\n' :: (indentC lvl ++ ['}'])) := rfl

theorem printMems_cons_nil (lvl : Nat) (k : String) (v : Json) :
    printMems lvl (Members.cons k v Members.nil)
      = indentC lvl ++ quoteStr k ++ ':' :: ' ' :: (printVal lvl v ++ []) := rfl

theorem printMems_cons_cons (lvl : Nat) (k : String) (v : Json)
    (k2 : String) (v2 : Json) (m2 : Members) :
    printMems lvl (Members.cons k v (Members.cons k2 v2 m2))
      = indentC lvl ++ quoteStr k ++ ':' :: ' '
          :: (printVal lvl v
            ++ (',' :: '\n' :: printMems lvl (Members.cons k2 v2 m2))) := rfl

theorem jsize_str (s : String) : jsize (Json.str s) = 1 := rfl

theorem jsize_num (neg : Bool) (ip : Nat) (frac : List (Fin 10)) :
    jsize (Json.num neg ip frac) = 1 := rfl

theorem jsize_obj (m : Members) : jsize (Json.obj m) = msize m + 1 := rfl

theorem msize_nil : msize Members.nil = 1 := rfl

theorem msize_cons (k : String) (v : Json) (m : Members) :
    msize (Members.cons k v m) = max (jsize v) (msize m) + 1 := rfl

theorem numStop_newline (x : List Char) : numStop ('\n' :: x) := by
  constructor <;> decide

theorem numStop_comma (x : List Char) : numStop (',' :: x) := by
  constructor <;> decide

theorem parse_print : ∀ fuel : Nat,
    (∀ (lvl : Nat) (v : Json) (rest : List Char), jsize v ≤ fuel → numStop rest →
      parseVal fuel (printVal lvl v ++ rest) = some (v, rest))
    ∧ (∀ (lvl : Nat) (k : String) (v : Json) (m : Members) (rest : List Char),
        msize (Members.cons k v m) ≤ fuel →
        parseMems fuel
          ('\n' :: (printMems (lvl + 1) (Members.cons k v m)
            ++ '\n' :: (indentC lvl ++ '}' :: rest)))
          = some (Members.cons k v m, rest)) := by
  intro fuel
  induction fuel using Nat.strong_induction_on with
  | _ fuel ih =>
  constructor
  · intro lvl v rest hsz hstop
    cases v with
    | str s =>
      cases fuel with
      | zero => simp [jsize] at hsz
      | succ f =>
        rw [printVal_str]
        have hsh : quoteStr s ++ rest = '"' :: (escStr s.data ++ '"' :: rest) := by
          simp [quoteStr]
        rw [hsh, parseVal_succ, parseValStep_quote, strBody_quote]
    | num neg ip frac =>
      cases fuel with
      | zero => simp [jsize] at hsz
      | succ f =>
        rw [printVal_num]
        cases neg with
        | true =>
          have hsh : numChars true ip frac ++ rest
              = '-' :: (natDigits ip ++ (fracChars frac ++ rest)) := by
            simp [numChars]
          rw [hsh, parseVal_succ, parseValStep_dash,
            numCore_print ip frac rest hstop]
        | false =>
          obtain ⟨c, t, hd, hcdig⟩ := natDigits_head ip
          have hsh : numChars false ip frac ++ rest
              = c :: (t ++ (fracChars frac ++ rest)) := by
            simp [numChars, hd]
          rw [hsh, parseVal_succ, parseValStep_digit _ _ hcdig]
          have hback : c :: (t ++ (fracChars frac ++ rest))
              = natDigits ip ++ (fracChars frac ++ rest) := by
            rw [hd]; simp
          rw [hback, numCore_print ip frac rest hstop]
    | obj m =>
      cases m with
      | nil =>
        cases fuel with
        | zero => simp [jsize] at hsz
        | succ f =>
          have hf : 1 ≤ f := by
            simp [jsize, msize] at hsz
            omega
          rw [printVal_obj_nil]
          have hsh : (['{', '}'] : List Char) ++ rest = '{' :: ('}' :: rest) := rfl
          rw [hsh, parseVal_succ, parseValStep_brace]
          cases f with
          | zero => omega
          | succ f2 => rw [parseMems_succ, parseMemsStep_close]
      | cons k v m2 =>
        cases fuel with
        | zero => simp [jsize, msize] at hsz
        | succ f =>
          rw [printVal_obj_cons]
          have hsh : ('{' :: '\n'
                :: (printMems (lvl + 1) (Members.cons k v m2)
                  ++ '\n' :: (indentC lvl ++ ['}']))) ++ rest
              = '{' :: ('\n' :: (printMems (lvl + 1) (Members.cons k v m2)
                  ++ '\n' :: (indentC lvl ++ '}' :: rest))) := by
            simp
          rw [hsh, parseVal_succ, parseValStep_brace]
          have hmsz : msize (Members.cons k v m2) ≤ f := by
            simp [jsize] at hsz
            omega
          rw [(ih f (by omega)).2 lvl k v m2 rest hmsz]
  · intro lvl k v m rest hsz
    cases fuel with
    | zero => simp [msize] at hsz
    | succ f =>
      have hjv : jsize v ≤ f := by
        simp [msize] at hsz
        omega
      have hmm : msize m ≤ f := by
        simp [msize] at hsz
        omega
      rw [parseMems_succ]
      cases m with
      | nil =>
        have hsh : '\n' :: (printMems (lvl + 1) (Members.cons k v Members.nil)
              ++ '\n' :: (indentC lvl ++ '}' :: rest))
            = ('\n' :: indentC (lvl + 1))
              ++ ('"' :: (escStr k.data
                ++ '"' :: (':' :: (' ' :: (printVal (lvl + 1) v
                  ++ ('\n' :: (indentC lvl ++ '}' :: rest))))))) := by
          rw [printMems_cons_nil]
          simp [quoteStr]
        rw [hsh, parseMemsStep_ws _ _ _ _ (by
          intro c hc
          rcases List.mem_cons.mp hc with h | h
          · subst h; decide
          · rw [List.eq_of_mem_replicate h]; decide)]
        rw [parseMemsStep_quote, strBody_quote]
        have hskip1 : skipWs (':' :: (' ' :: (printVal (lvl + 1) v
              ++ ('\n' :: (indentC lvl ++ '}' :: rest)))))
            = ':' :: (' ' :: (printVal (lvl + 1) v
              ++ ('\n' :: (indentC lvl ++ '}' :: rest)))) :=
          skipWs_stop (by decide)
        have hpv : parseVal f (' ' :: (printVal (lvl + 1) v
              ++ ('\n' :: (indentC lvl ++ '}' :: rest))))
            = some (v, '\n' :: (indentC lvl ++ '}' :: rest)) := by
          have hws := parseVal_ws f [' '] (printVal (lvl + 1) v
            ++ ('\n' :: (indentC lvl ++ '}' :: rest))) (by
              intro c hc
              simp only [List.mem_singleton] at hc
              subst hc; decide)
          simp only [List.singleton_append] at hws
          rw [hws, (ih f (by omega)).1 (lvl + 1) v _ hjv (numStop_newline _)]
        have hskip2 : skipWs ('\n' :: (indentC lvl ++ '}' :: rest)) = '}' :: rest := by
          show skipWs (('\n' :: indentC lvl) ++ '}' :: rest) = '}' :: rest
          rw [skipWs_all_append _ _ (by
            intro c hc
            rcases List.mem_cons.mp hc with h | h
            · subst h; decide
            · rw [List.eq_of_mem_replicate h]; decide)]
          exact skipWs_stop (by decide)
        simp only [hskip1, hpv, hskip2, mk_data]
      | cons k2 v2 m3 =>
        have hsh : '\n' :: (printMems (lvl + 1) (Members.cons k v (Members.cons k2 v2 m3))
              ++ '\n' :: (indentC lvl ++ '}' :: rest))
            = ('\n' :: indentC (lvl + 1))
              ++ ('"' :: (escStr k.data
                ++ '"' :: (':' :: (' ' :: (printVal (lvl + 1) v
                  ++ (',' :: ('\n' :: (printMems (lvl + 1) (Members.cons k2 v2 m3)
                    ++ '\n' :: (indentC lvl ++ '}' :: rest))))))))) := by
          rw [printMems_cons_cons]
          simp [quoteStr]
        rw [hsh, parseMemsStep_ws _ _ _ _ (by
          intro c hc
          rcases List.mem_cons.mp hc with h | h
          · subst h; decide
          · rw [List.eq_of_mem_replicate h]; decide)]
        rw [parseMemsStep_quote, strBody_quote]
        have hskip1 : skipWs (':' :: (' ' :: (printVal (lvl + 1) v
              ++ (',' :: ('\n' :: (printMems (lvl + 1) (Members.cons k2 v2 m3)
                ++ '\n' :: (indentC lvl ++ '}' :: rest)))))))
            = ':' :: (' ' :: (printVal (lvl + 1) v
              ++ (',' :: ('\n' :: (printMems (lvl + 1) (Members.cons k2 v2 m3)
                ++ '\n' :: (indentC lvl ++ '}' :: rest)))))) :=
          skipWs_stop (by decide)
        have hpv : parseVal f (' ' :: (printVal (lvl + 1) v
              ++ (',' :: ('\n' :: (printMems (lvl + 1) (Members.cons k2 v2 m3)
                ++ '\n' :: (indentC lvl ++ '}' :: rest))))))
            = some (v, ',' :: ('\n' :: (printMems (lvl + 1) (Members.cons k2 v2 m3)
                ++ '\n' :: (indentC lvl ++ '}' :: rest)))) := by
          have hws := parseVal_ws f [' '] (printVal (lvl + 1) v
            ++ (',' :: ('\n' :: (printMems (lvl + 1) (Members.cons k2 v2 m3)
              ++ '\n' :: (indentC lvl ++ '}' :: rest))))) (by
              intro c hc
              simp only [List.mem_singleton] at hc
              subst hc; decide)
          simp only [List.singleton_append] at hws
          rw [hws, (ih f (by omega)).1 (lvl + 1) v _ hjv (numStop_comma _)]
        have hskip2 : skipWs (',' :: ('\n' :: (printMems (lvl + 1) (Members.cons k2 v2 m3)
              ++ '\n' :: (indentC lvl ++ '}' :: rest))))
            = ',' :: ('\n' :: (printMems (lvl + 1) (Members.cons k2 v2 m3)
              ++ '\n' :: (indentC lvl ++ '}' :: rest))) :=
          skipWs_stop (by decide)
        have hrec := (ih f (by omega)).2 lvl k2 v2 m3 rest hmm
        simp only [hskip1, hpv, hskip2, hrec, mk_data]

theorem quoteStr_len (s : String) : 2 ≤ (quoteStr s).length := by
  simp only [quoteStr, List.length_cons, List.length_append]
  omega

mutual
theorem jsize_le_print : ∀ (v : Json) (lvl : Nat),
    jsize v ≤ (printVal lvl v).length + 1
  | Json.str s, _lvl => by
    rw [jsize_str]
    omega
  | Json.num neg ip frac, _lvl => by
    rw [jsize_num]
    omega
  | Json.obj Members.nil, lvl => by
    rw [jsize_obj, msize_nil, printVal_obj_nil]
    simp
  | Json.obj (Members.cons k v m), lvl => by
    rw [jsize_obj, printVal_obj_cons]
    have h := msize_le_print k v m (lvl + 1)
    simp only [List.length_cons, List.length_append]
    omega
termination_by v lvl => sizeOf v
theorem msize_le_print : ∀ (k : String) (v : Json) (m : Members) (lvl : Nat),
    msize (Members.cons k v m) ≤ (printMems lvl (Members.cons k v m)).length + 1
  | k, v, Members.nil, lvl => by
    rw [msize_cons, msize_nil, printMems_cons_nil]
    have hv := jsize_le_print v lvl
    have hq := quoteStr_len k
    simp only [List.length_append, List.length_cons, List.append_nil]
    omega
  | k, v, Members.cons k2 v2 m2, lvl => by
    rw [msize_cons, printMems_cons_cons]
    have hv := jsize_le_print v lvl
    have hm := msize_le_print k2 v2 m2 lvl
    have hq := quoteStr_len k
    simp only [List.length_append, List.length_cons]
    omega
termination_by k v m lvl => sizeOf (Members.cons k v m)
end

theorem numStop_nil : numStop [] := trivial

theorem jsonLoads_dumps (v : Json) : jsonLoads (jsonDumps v) = some v := by
  have hsz : jsize v ≤ (printVal 0 v).length + 1 := jsize_le_print v 0
  have h := (parse_print ((printVal 0 v).length + 1)).1 0 v [] hsz numStop_nil
  rw [List.append_nil] at h
  unfold jsonLoads jsonDumps
  rw [data_mk]
  rw [h]
  simp [skipWs]

/-! ## UTF-8 round trip -/

theorem utf8Bytes_len_pos (c : Char) : 1 ≤ (utf8Bytes c).length := by
  unfold utf8Bytes
  split_ifs <;> simp

theorem utf8Encode_len_ge : ∀ l : List Char, l.length ≤ (utf8Encode l).length := by
  intro l
  induction l with
  | nil => simp [utf8Encode]
  | cons c cs ih =>
    have := utf8Bytes_len_pos c
    simp only [utf8Encode, List.length_append, List.length_cons]
    omega

theorem utf8DecodeGo_succ (fuel : Nat) (b : Nat) (rest : List Nat) :
    utf8DecodeGo (fuel + 1) (b :: rest) = utf8DecodeStep (utf8DecodeGo fuel) b rest := rfl

theorem utf8_step (c : Char) (bs : List Nat) (fuel : Nat) :
    utf8DecodeGo (fuel + 1) (utf8Bytes c ++ bs)
      = (utf8DecodeGo fuel bs).map (fun l => c :: l) := by
  have hv := char_valid_nat c
  have hcv : c.toNat < 1114112 ∧ ¬ (55296 ≤ c.toNat ∧ c.toNat ≤ 57343) := by
    rcases hv with h | h <;> (constructor <;> omega)
  unfold utf8Bytes
  by_cases h1 : c.toNat < 128
  · simp only [if_pos h1, List.cons_append, List.nil_append, utf8DecodeGo_succ]
    unfold utf8DecodeStep
    simp only [if_pos h1, mkChar_toNat c]
  · by_cases h2 : c.toNat < 2048
    · simp only [if_neg h1, if_pos h2, List.cons_append, List.nil_append,
        utf8DecodeGo_succ]
      unfold utf8DecodeStep
      have e1 : ¬ (192 + c.toNat / 64 < 128) := by omega
      have e2 : ¬ (192 + c.toNat / 64 < 194) := by omega
      have e3 : 192 + c.toNat / 64 < 224 := by omega
      have e4 : 128 ≤ 128 + c.toNat % 64 ∧ 128 + c.toNat % 64 < 192 := by omega
      have eb : (192 + c.toNat / 64 - 192) * 64 + (128 + c.toNat % 64 - 128)
          = c.toNat := by omega
      simp only [if_neg e1, if_neg e2, if_pos e3, if_pos e4, eb, mkChar_toNat c]
    · by_cases h3 : c.toNat < 65536
      · simp only [if_neg h1, if_neg h2, if_pos h3, List.cons_append,
          List.nil_append, utf8DecodeGo_succ]
        unfold utf8DecodeStep
        have e1 : ¬ (224 + c.toNat / 4096 < 128) := by omega
        have e2 : ¬ (224 + c.toNat / 4096 < 194) := by omega
        have e3 : ¬ (224 + c.toNat / 4096 < 224) := by omega
        have e4 : 224 + c.toNat / 4096 < 240 := by omega
        have e5 : (128 ≤ 128 + c.toNat / 64 % 64 ∧ 128 + c.toNat / 64 % 64 < 192)
            ∧ (128 ≤ 128 + c.toNat % 64 ∧ 128 + c.toNat % 64 < 192) := by omega
        have eb : (224 + c.toNat / 4096 - 224) * 4096
            + (128 + c.toNat / 64 % 64 - 128) * 64 + (128 + c.toNat % 64 - 128)
            = c.toNat := by omega
        have e6 : ¬ ((224 + c.toNat / 4096 - 224) * 4096
            + (128 + c.toNat / 64 % 64 - 128) * 64 + (128 + c.toNat % 64 - 128)
            < 2048) := by omega
        simp only [if_neg e1, if_neg e2, if_neg e3, if_pos e4, if_pos e5,
          if_neg e6, eb, mkChar_toNat c]
        rw [if_neg h2]
      · simp only [if_neg h1, if_neg h2, if_neg h3, List.cons_append,
          List.nil_append, utf8DecodeGo_succ]
        unfold utf8DecodeStep
        have e1 : ¬ (240 + c.toNat / 262144 < 128) := by omega
        have e2 : ¬ (240 + c.toNat / 262144 < 194) := by omega
        have e3 : ¬ (240 + c.toNat / 262144 < 224) := by omega
        have e4 : ¬ (240 + c.toNat / 262144 < 240) := by omega
        have e5 : 240 + c.toNat / 262144 < 245 := by omega
        have e6 : (128 ≤ 128 + c.toNat / 4096 % 64 ∧ 128 + c.toNat / 4096 % 64 < 192)
            ∧ (128 ≤ 128 + c.toNat / 64 % 64 ∧ 128 + c.toNat / 64 % 64 < 192)
            ∧ (128 ≤ 128 + c.toNat % 64 ∧ 128 + c.toNat % 64 < 192) := by omega
        have eb : (240 + c.toNat / 262144 - 240) * 262144
            + (128 + c.toNat / 4096 % 64 - 128) * 4096
            + (128 + c.toNat / 64 % 64 - 128) * 64 + (128 + c.toNat % 64 - 128)
            = c.toNat := by omega
        have e7 : ¬ ((240 + c.toNat / 262144 - 240) * 262144
            + (128 + c.toNat / 4096 % 64 - 128) * 4096
            + (128 + c.toNat / 64 % 64 - 128) * 64 + (128 + c.toNat % 64 - 128)
            < 65536) := by omega
        simp only [if_neg e1, if_neg e2, if_neg e3, if_neg e4, if_pos e5,
          if_pos e6, if_neg e7, eb, mkChar_toNat c]
        rw [if_neg h3]

theorem utf8DecodeGo_encode : ∀ (l : List Char) (fuel : Nat),
    l.length ≤ fuel → utf8DecodeGo fuel (utf8Encode l) = some l := by
  intro l
  induction l with
  | nil =>
    intro fuel _
    cases fuel <;> rfl
  | cons c cs ih =>
    intro fuel hf
    cases fuel with
    | zero => simp at hf
    | succ f =>
      rw [utf8Encode, utf8_step c (utf8Encode cs) f]
      simp only [List.length_cons] at hf
      rw [ih f (by omega)]
      rfl

theorem utf8Decode_encode (l : List Char) :
    utf8Decode (utf8Encode l) = some l := by
  unfold utf8Decode
  exact utf8DecodeGo_encode l _ (utf8Encode_len_ge l)

/-- Claim C3: for every generated record, the payload handed to `queue.put`
is exactly the UTF-8 encoding of the `json.dumps(record, indent=2)` text;
UTF-8 decoding the payload recovers that text, and JSON-decoding the text
yields precisely the JSON object of the generated record — same keys, same
values (the serialization round-trip loses nothing). -/
theorem c3_payload_roundtrip (o : Oracle) :
    (send_message false false (generate_transaction o).toJson).payload
      = utf8Encode (jsonDumps ((generate_transaction o).toJson)).data
    ∧ utf8Decode ((send_message false false (generate_transaction o).toJson).payload)
      = some (jsonDumps ((generate_transaction o).toJson)).data
    ∧ jsonLoads (jsonDumps ((generate_transaction o).toJson))
      = some ((generate_transaction o).toJson) := by
  refine ⟨rfl, ?_, jsonLoads_dumps _⟩
  exact utf8Decode_encode _
